import Mathlib

/-!
Verification development for the store-it file-storage application.

The definitions below are shallow embeddings of the TypeScript source:
  * `getFileType`, `constructFileUrl` — `src/lib/utils.ts`
  * `verifyFileOwnership`, `uploadFile`, `createQueries`, `getFiles`,
    `renameFile`, `updateFileUsers`, `deleteFile`, `getTotalSpaceUsed`
    — `src/lib/actions/file.actions.ts`

Modelling conventions:
  * JavaScript strings are Lean `String`s; `toLowerCase`, `endsWith` and
    `split('.')` are embedded as `jsToLower`, `jsEndsWith`, `splitOnDot`
    (operating on the character list of the string).
  * Backend (Appwrite) calls are modelled against an explicit `DB` state
    (document records plus blob ids); calls that may fail at the backend
    take an explicit success flag, and a thrown/re-thrown JS exception is
    `Except.error ()`.
  * Each action additionally returns the list of backend `Event`s it
    issued, in order, so ordering properties ("record delete happens
    before blob delete") are statable.
  * ISO-8601 `$updatedAt` timestamps are embedded as `Nat`; the JS
    `new Date(a) > new Date(b)` comparison becomes `<` on `Nat`
    (date parsing is monotone on well-formed timestamps), and the falsy
    empty-string initial date becomes `Option.none`.
  * `parseStringify` (a JSON round trip) is the identity and is omitted.
-/

/-- The `FileType` union from `src/types`: exactly the five category
strings the application uses. -/
inductive FileType where
  | document
  | image
  | video
  | audio
  | other
deriving DecidableEq, Repr

/-- The string value of a category, as stored in the `type` attribute. -/
def FileType.toStr : FileType → String
  | .document => "document"
  | .image => "image"
  | .video => "video"
  | .audio => "audio"
  | .other => "other"

/-- JS `String.prototype.toLowerCase` (ASCII-relevant part). -/
def jsToLower (s : String) : String :=
  String.mk (s.toList.map Char.toLower)

/-- JS `String.prototype.endsWith`. -/
def jsEndsWith (s suffix : String) : Bool :=
  suffix.toList.isSuffixOf s.toList

/-- JS `fileName.split('.')` on the character list: splits at every `'.'`,
keeping empty components, and yields `[cs]` when there is no dot
(`"".split('.')` is `[""]`, i.e. `[[]]`). -/
def splitOnDot : List Char → List (List Char)
  | [] => [[]]
  | c :: rest =>
    match splitOnDot rest with
    | [] => [[]]
    | h :: t => if c = '.' then [] :: h :: t else (c :: h) :: t

/-- `documentExtensions` from `src/lib/utils.ts` (the duplicate
`'afphoto'` entry is in the source). -/
def documentExtensions : List String :=
  ["pdf", "doc", "docx", "txt", "xls", "xlsx", "csv", "rtf", "ods",
   "ppt", "odp", "md", "html", "htm", "epub", "pages", "fig", "psd",
   "ai", "indd", "xd", "sketch", "afdesign", "afphoto", "afphoto"]

/-- `imageExtensions` from `src/lib/utils.ts`. -/
def imageExtensions : List String :=
  ["jpg", "jpeg", "png", "gif", "bmp", "svg", "webp"]

/-- `videoExtensions` from `src/lib/utils.ts`. -/
def videoExtensions : List String :=
  ["mp4", "avi", "mov", "mkv", "webm"]

/-- `audioExtensions` from `src/lib/utils.ts`. -/
def audioExtensions : List String :=
  ["mp3", "wav", "ogg", "flac"]

/-- `getFileType` from `src/lib/utils.ts`: lowercases the final
dot-separated component of the file name (`split('.').pop()`), returns
`(other, "")` when that component is missing or empty (the JS
`!extension` check), and otherwise classifies it through the fixed
extension tables. -/
def getFileType (fileName : String) : FileType × String :=
  match (splitOnDot fileName.toList).getLast? with
  | none => (FileType.other, "")
  | some extChars =>
    let extension := String.mk (extChars.map Char.toLower)
    if extension = "" then (FileType.other, "")
    else if documentExtensions.contains extension then (FileType.document, extension)
    else if imageExtensions.contains extension then (FileType.image, extension)
    else if videoExtensions.contains extension then (FileType.video, extension)
    else if audioExtensions.contains extension then (FileType.audio, extension)
    else (FileType.other, extension)

/-- The pure lookup table of `getFileType`, applied to an already
lowercased extension string. -/
def lookupCategory (ext : String) : FileType :=
  if ext = "" then FileType.other
  else if documentExtensions.contains ext then FileType.document
  else if imageExtensions.contains ext then FileType.image
  else if videoExtensions.contains ext then FileType.video
  else if audioExtensions.contains ext then FileType.audio
  else FileType.other

/-- The lowercased final dot-separated component of a file name — the
"derived extension" of the spec. -/
def extensionOf (fileName : String) : String :=
  match (splitOnDot fileName.toList).getLast? with
  | none => ""
  | some extChars => String.mk (extChars.map Char.toLower)

/-- Whether an extension string appears in any of the four fixed tables. -/
def knownExtension (ext : String) : Bool :=
  documentExtensions.contains ext || imageExtensions.contains ext ||
    videoExtensions.contains ext || audioExtensions.contains ext

lemma splitOnDot_ne_nil (cs : List Char) : splitOnDot cs ≠ [] := by
  cases cs with
  | nil => simp [splitOnDot]
  | cons c rest =>
    cases h : splitOnDot rest with
    | nil => simp [splitOnDot, h]
    | cons hd tl =>
      simp only [splitOnDot, h]
      split <;> simp

lemma splitOnDot_no_dot {cs : List Char} (h : '.' ∉ cs) :
    splitOnDot cs = [cs] := by
  induction cs with
  | nil => rfl
  | cons c rest ih =>
    simp only [List.mem_cons, not_or] at h
    simp only [splitOnDot, ih h.2]
    rw [if_neg (fun hc => h.1 hc.symm)]

example : getFileType "photo.JPG" = (FileType.image, "jpg") := by decide
example : getFileType "README" = (FileType.other, "readme") := by decide
example : getFileType "" = (FileType.other, "") := by decide
example : getFileType "archive." = (FileType.other, "") := by decide
example : getFileType "a.b.pdf" = (FileType.document, "pdf") := by decide

/-! ## Data model

A user document (`src/lib/actions/user.actions.ts` schema, restricted to
the fields the file actions read) and a file document
(`src/lib/actions/file.actions.ts`, `fileDocument` shape plus the
server-set `$id` and `$updatedAt`). -/

/-- A user record: `$id` and `email` are the fields the file actions use. -/
structure UserRecord where
  id : String
  email : String
deriving DecidableEq, Repr

/-- A file document: the `fileDocument` fields written by `uploadFile`
plus the server-assigned `$id` and `$updatedAt`. -/
structure FileRecord where
  id : String
  name : String
  type : FileType
  url : String
  extension : String
  size : Nat
  owner : String
  accountId : String
  users : List String
  bucketFileId : String
  updatedAt : Nat
deriving DecidableEq, Repr

/-- The backend state: the `files` collection and the storage bucket's
blob ids. -/
structure DB where
  files : List FileRecord
  blobs : List String
deriving DecidableEq, Repr

/-- The structured `{status, message}` value built by
`verifyFileOwnership` via `parseStringify`. -/
structure StatusResponse where
  status : String
  message : String
deriving DecidableEq, Repr

/-- What a file action returns on the non-throwing paths: the structured
error object, an updated/created document, the `{status:'success'}`
object of `deleteFile`, or JS `null`/`undefined` (unreachable in the
modelled paths but present in the code's types). -/
inductive ActionResult where
  | err (e : StatusResponse)
  | doc (f : FileRecord)
  | success
  | nullish
deriving DecidableEq, Repr

/-- A backend call issued by an action, in program order.  The `Bool`
flags record whether the call succeeded. -/
inductive Event where
  | getDoc (fileId : String)
  | dbUpdate (fileId : String)
  | dbDelete (fileId : String) (ok : Bool)
  | docCreate (ok : Bool)
  | blobCreate (blobId : String) (ok : Bool)
  | blobDelete (blobId : String)
deriving DecidableEq, Repr

/-- The update payload passed to `databases.updateDocument`: `renameFile`
sends `{name}`, `updateFileUsers` sends `{users}`. -/
inductive Patch where
  | setName (name : String)
  | setUsers (users : List String)
deriving DecidableEq, Repr

/-- `databases.getDocument` on the files collection: the record with the
given `$id`, or a thrown not-found error (`none`). -/
def getDocument (db : DB) (fileId : String) : Option FileRecord :=
  db.files.find? (fun f => f.id == fileId)

/-- Applying an update payload to a document: only the patched attribute
changes. -/
def applyPatch (p : Patch) (f : FileRecord) : FileRecord :=
  match p with
  | .setName n => { f with name := n }
  | .setUsers us => { f with users := us }

/-- `databases.updateDocument`: patches the record with the given id and
returns the updated document, or throws (`none`) when it is absent. -/
def updateDocument (db : DB) (fileId : String) (p : Patch) :
    Option (FileRecord × DB) :=
  match getDocument db fileId with
  | none => none
  | some f =>
    let f' := applyPatch p f
    some (f', { db with
      files := db.files.map (fun g => if g.id == fileId then f' else g) })

/-- `databases.deleteDocument`: removes the record with the given id.
`backendOk` is the success of the backend call itself; the call also
throws when the record is absent.  `none` models the thrown error. -/
def deleteDocument (db : DB) (fileId : String) (backendOk : Bool) :
    Option DB :=
  if backendOk then
    match getDocument db fileId with
    | none => none
    | some _ =>
      some { db with files := db.files.filter (fun g => !(g.id == fileId)) }
  else none

/-! ## verifyFileOwnership (`file.actions.ts` lines 30–81) -/

/-- The record returned by `verifyFileOwnership`:
`{isOwner, currentUser, fileDoc, errorResponse}`. -/
structure OwnershipCheck where
  isOwner : Bool
  currentUser : Option UserRecord
  fileDoc : Option FileRecord
  errorResponse : Option StatusResponse
deriving DecidableEq, Repr

/-- `verifyFileOwnership`: with no authenticated user it returns the
structured "User not authenticated" error without touching the files
collection; otherwise it fetches the document (re-throwing a fetch
failure through `handleError`) and compares `fileDoc.owner.$id` with the
caller's `$id`.  The returned trace lists the backend calls issued. -/
def verifyFileOwnership (db : DB) (currentUser : Option UserRecord)
    (fileId actionType : String) :
    Except Unit OwnershipCheck × List Event :=
  match currentUser with
  | none =>
    (.ok ⟨false, none, none,
      some ⟨"error", "User not authenticated"⟩⟩, [])
  | some cu =>
    match getDocument db fileId with
    | none => (.error (), [.getDoc fileId])
    | some fileDoc =>
      let isOwner := fileDoc.owner == cu.id
      (.ok ⟨isOwner, some cu, some fileDoc,
        if isOwner then none
        else some ⟨"error",
          "Only the file owner can " ++ actionType ++ " this file"⟩⟩,
       [.getDoc fileId])

/-! ## renameFile, updateFileUsers, deleteFile
(`file.actions.ts` lines 255–295, 310–341, 358–392) -/

/-- The name stored by `renameFile`: `name`, with `"." ++ extension`
appended unless the lowercased name already ends with the lowercased
`"." ++ extension`. -/
def renameNewName (name extension : String) : String :=
  let hasExtension := jsEndsWith (jsToLower name) ("." ++ jsToLower extension)
  if hasExtension then name else name ++ "." ++ extension

/-- `renameFile`: after the ownership check, appends `"." ++ extension`
unless the lowercased name already ends with the lowercased
`"." ++ extension`, then updates only the `name` attribute. -/
def renameFile (db : DB) (currentUser : Option UserRecord)
    (fileId name extension : String) :
    Except Unit ActionResult × DB × List Event :=
  match verifyFileOwnership db currentUser fileId "rename" with
  | (.error _, tr) => (.error (), db, tr)
  | (.ok chk, tr) =>
    if chk.isOwner = false then
      (.ok (match chk.errorResponse with
            | some e => .err e
            | none => .nullish), db, tr)
    else
      let newName := renameNewName name extension
      match updateDocument db fileId (.setName newName) with
      | none => (.error (), db, tr ++ [.dbUpdate fileId])
      | some (f', db') => (.ok (.doc f'), db', tr ++ [.dbUpdate fileId])

/-- `updateFileUsers`: after the ownership check, replaces the `users`
attribute with the supplied email list. -/
def updateFileUsers (db : DB) (currentUser : Option UserRecord)
    (fileId : String) (emails : List String) :
    Except Unit ActionResult × DB × List Event :=
  match verifyFileOwnership db currentUser fileId
      "update sharing permissions for" with
  | (.error _, tr) => (.error (), db, tr)
  | (.ok chk, tr) =>
    if chk.isOwner = false then
      (.ok (match chk.errorResponse with
            | some e => .err e
            | none => .nullish), db, tr)
    else
      match updateDocument db fileId (.setUsers emails) with
      | none => (.error (), db, tr ++ [.dbUpdate fileId])
      | some (f', db') => (.ok (.doc f'), db', tr ++ [.dbUpdate fileId])

/-- `deleteFile`: after the ownership check, deletes the database record;
only if that call returned (the SDK's always-truthy response) does it
delete the storage blob, then returns `{status:'success'}`.  A thrown
record-deletion error is re-thrown by `handleError` and the blob call is
never issued. -/
def deleteFile (db : DB) (currentUser : Option UserRecord)
    (fileId bucketFileId : String) (dbDeleteOk : Bool) :
    Except Unit ActionResult × DB × List Event :=
  match verifyFileOwnership db currentUser fileId "delete" with
  | (.error _, tr) => (.error (), db, tr)
  | (.ok chk, tr) =>
    if chk.isOwner = false then
      (.ok (match chk.errorResponse with
            | some e => .err e
            | none => .nullish), db, tr)
    else
      match deleteDocument db fileId dbDeleteOk with
      | none => (.error (), db, tr ++ [.dbDelete fileId false])
      | some db' =>
        let db'' := { db' with
          blobs := db'.blobs.filter (fun b => !(b == bucketFileId)) }
        (.ok .success, db'',
         tr ++ [.dbDelete fileId true, .blobDelete bucketFileId])

/-! ## uploadFile (`file.actions.ts` lines 99–145) -/

/-- The browser `File` passed to `uploadFile`: its name and byte size. -/
structure UploadedFile where
  name : String
  size : Nat
deriving DecidableEq, Repr

/-- The blob returned by `storage.createFile`. -/
structure BucketFile where
  id : String
  name : String
  sizeOriginal : Nat
deriving DecidableEq, Repr

/-- `constructFileUrl` from `src/lib/utils.ts` (the endpoint, bucket and
project env-var segments are fixed placeholder strings here). -/
def constructFileUrl (bucketFileId : String) : String :=
  "ENDPOINT/storage/buckets/BUCKET/files/" ++ bucketFileId ++
    "/view?project=PROJECT"

/-- `uploadFile`: creates the blob (id chosen by `ID.unique()`, passed in
as `newBlobId`; `createOk` is the call's success), builds the
`fileDocument` from `getFileType`, and creates the database record
(`newDocId`, `docCreateOk`).  When record creation fails, the `.catch`
handler deletes the just-created blob and `handleError` re-throws; the
outer catch re-throws again. `$updatedAt` is server-assigned and modelled
as `0`. -/
def uploadFile (db : DB) (file : UploadedFile) (ownerId accountId : String)
    (newBlobId newDocId : String) (createOk docCreateOk : Bool) :
    Except Unit ActionResult × DB × List Event :=
  if createOk = false then
    (.error (), db, [.blobCreate newBlobId false])
  else
    let bucketFile : BucketFile := ⟨newBlobId, file.name, file.size⟩
    let db1 : DB := { db with blobs := db.blobs ++ [newBlobId] }
    let fileDocument : FileRecord :=
      { id := newDocId
        name := bucketFile.name
        type := (getFileType bucketFile.name).1
        url := constructFileUrl bucketFile.id
        extension := (getFileType bucketFile.name).2
        size := bucketFile.sizeOriginal
        owner := ownerId
        accountId := accountId
        users := []
        bucketFileId := bucketFile.id
        updatedAt := 0 }
    if docCreateOk then
      (.ok (.doc fileDocument),
       { db1 with files := db1.files ++ [fileDocument] },
       [.blobCreate newBlobId true, .docCreate true])
    else
      (.error (),
       { db1 with blobs := db1.blobs.filter (fun b => !(b == newBlobId)) },
       [.blobCreate newBlobId true, .docCreate false, .blobDelete newBlobId])

/-! ## getTotalSpaceUsed (`file.actions.ts` lines 410–449) -/

/-- One per-category accumulator entry `{size, latestDate}`.  The falsy
initial `''` date is `none`. -/
structure CategorySummary where
  size : Nat
  latestDate : Option Nat
deriving DecidableEq, Repr

/-- The `totalSpace` accumulator. -/
structure TotalSpace where
  image : CategorySummary
  document : CategorySummary
  video : CategorySummary
  audio : CategorySummary
  other : CategorySummary
  used : Nat
  all : Nat
deriving DecidableEq, Repr

/-- The initial `totalSpace` object, `all` fixed at 2 GiB. -/
def initialTotalSpace : TotalSpace :=
  { image := ⟨0, none⟩
    document := ⟨0, none⟩
    video := ⟨0, none⟩
    audio := ⟨0, none⟩
    other := ⟨0, none⟩
    used := 0
    all := 2 * 1024 * 1024 * 1024 }

/-- The per-category statement block of the `forEach` body: add the size;
replace `latestDate` when it is still unset or strictly older. -/
def updateCategory (c : CategorySummary) (fsize updatedAt : Nat) :
    CategorySummary :=
  { size := c.size + fsize
    latestDate :=
      match c.latestDate with
      | none => some updatedAt
      | some d => if d < updatedAt then some updatedAt else some d }

/-- The whole `forEach` body: dispatch on `file.type`, then
`totalSpace.used += file.size`. -/
def addFile (ts : TotalSpace) (f : FileRecord) : TotalSpace :=
  let ts1 :=
    match f.type with
    | .image => { ts with image := updateCategory ts.image f.size f.updatedAt }
    | .document => { ts with document := updateCategory ts.document f.size f.updatedAt }
    | .video => { ts with video := updateCategory ts.video f.size f.updatedAt }
    | .audio => { ts with audio := updateCategory ts.audio f.size f.updatedAt }
    | .other => { ts with other := updateCategory ts.other f.size f.updatedAt }
  { ts1 with used := ts1.used + f.size }

/-- `getTotalSpaceUsed`: throws when unauthenticated, otherwise lists the
caller's owned records (`Query.equal('owner', [uid])`) and folds the
`forEach` body over them starting from `initialTotalSpace`. -/
def getTotalSpaceUsed (db : DB) (currentUser : Option UserRecord) :
    Except Unit TotalSpace :=
  match currentUser with
  | none => .error ()
  | some u =>
    let files := db.files.filter (fun f => f.owner == u.id)
    .ok (files.foldl addFile initialTotalSpace)

/-- The category field of the accumulator selected by a `FileType`
(the `totalSpace[fileType]` indexing). -/
def categoryOf (ts : TotalSpace) (t : FileType) : CategorySummary :=
  match t with
  | .image => ts.image
  | .document => ts.document
  | .video => ts.video
  | .audio => ts.audio
  | .other => ts.other

/-! ## createQueries / getFiles (`file.actions.ts` lines 161–241) -/

/-- Substring test on character lists (the backend's `contains` partial
match on a string attribute). -/
def listContainsSub (sub : List Char) : List Char → Bool
  | [] => sub.isEmpty
  | c :: rest => sub.isPrefixOf (c :: rest) || listContainsSub sub rest

/-- Substring test on strings. -/
def strContains (s sub : String) : Bool :=
  listContainsSub sub.toList s.toList

/-- The vendor SDK's query constructors used by `createQueries`.
`Query.or` is applied to exactly two sub-queries in the source. -/
inductive Query where
  | orQ (q1 q2 : Query)
  | equal (attr : String) (values : List String)
  | contains (attr : String) (values : List String)
  | limit (n : Nat)
  | orderAsc (attr : String)
  | orderDesc (attr : String)
deriving DecidableEq, Repr

/-- Backend evaluation of one query against a file record, for the
schema attributes the source queries (`owner`, `type`, `users`, `name`).
`limit`/`orderAsc`/`orderDesc` do not filter. -/
def matchesQuery (f : FileRecord) : Query → Bool
  | .orQ q1 q2 => matchesQuery f q1 || matchesQuery f q2
  | .equal attr values =>
    if attr = "owner" then values.contains f.owner
    else if attr = "type" then values.contains (FileType.toStr f.type)
    else if attr = "name" then values.contains f.name
    else false
  | .contains attr values =>
    if attr = "users" then values.any (fun v => f.users.contains v)
    else if attr = "name" then values.any (fun v => strContains f.name v)
    else false
  | .limit _ => true
  | .orderAsc _ => true
  | .orderDesc _ => true

/-- A record satisfies a query list when it satisfies every query. -/
def matchesAll (f : FileRecord) (qs : List Query) : Bool :=
  qs.all (fun q => matchesQuery f q)

/-- `databases.listDocuments` restricted to membership: the records
satisfying all filter queries (result order and truncation are outside
this model). -/
def listDocuments (db : DB) (qs : List Query) : List FileRecord :=
  db.files.filter (fun f => matchesAll f qs)

/-- JS `split` at an arbitrary single-character separator (same shape as
`splitOnDot`). -/
def splitOnChar (sep : Char) : List Char → List (List Char)
  | [] => [[]]
  | c :: rest =>
    match splitOnChar sep rest with
    | [] => [[]]
    | h :: t => if c = sep then [] :: h :: t else (c :: h) :: t

/-- JS `s.split(sep)` for a one-character separator, as strings. -/
def jsSplit (s : String) (sep : Char) : List String :=
  (splitOnChar sep s.toList).map String.mk

/-- `createQueries`: the owner-or-collaborator disjunction, then the
conditional `type`, `name`, `limit` and sort entries, exactly as pushed
by the source (`if (limit)` and `if (sort)` are JS truthiness tests;
`limit` is `number | undefined`). -/
def createQueries (currentUser : UserRecord) (types : List String)
    (searchText : String) (sort : String) (limit : Option Nat) :
    List Query :=
  let queries := [Query.orQ (Query.equal "owner" [currentUser.id])
                            (Query.contains "users" [currentUser.email])]
  let queries := if types.length > 0 then
      queries ++ [Query.equal "type" types] else queries
  let queries := if searchText ≠ "" then
      queries ++ [Query.contains "name" [searchText]] else queries
  let queries :=
    match limit with
    | none => queries
    | some n => if n = 0 then queries else queries ++ [Query.limit n]
  if sort ≠ "" then
    let parts := jsSplit sort '-'
    let sortBy := (parts.get? 0).getD ""
    let orderBy := (parts.get? 1).getD ""
    if sortBy ≠ "" ∧ orderBy ≠ "" then
      queries ++
        [if orderBy = "asc" then Query.orderAsc sortBy
         else Query.orderDesc sortBy]
    else queries
  else queries

/-- `getFiles`: throws when unauthenticated; otherwise lists documents
with `createQueries`, defaulting the sort to `'$createdAt-desc'`. -/
def getFiles (db : DB) (currentUser : Option UserRecord)
    (types : List String) (searchText : String) (sort : String)
    (limit : Option Nat) : Except Unit (List FileRecord) :=
  match currentUser with
  | none => .error ()
  | some u =>
    let sortValue := if sort = "" then "$createdAt-desc" else sort
    .ok (listDocuments db (createQueries u types searchText sortValue limit))

/-! ## Lemmas about `createQueries` -/

lemma matchesAll_append (f : FileRecord) (qs rs : List Query) :
    matchesAll f (qs ++ rs) = (matchesAll f qs && matchesAll f rs) := by
  simp [matchesAll, List.all_append]

/-- `matchesAll` over `createQueries` is the owner-or-collaborator test
conjoined with the optional category and name filters; the limit and
sort entries never filter. -/
lemma matchesAll_createQueries (f : FileRecord) (u : UserRecord)
    (types : List String) (s sort : String) (lim : Option Nat) :
    (matchesAll f (createQueries u types s sort lim) = true) ↔
      ((f.owner = u.id ∨ u.email ∈ f.users) ∧
       (types ≠ [] → FileType.toStr f.type ∈ types) ∧
       (s ≠ "" → strContains f.name s = true)) := by
  rcases lim with _ | n <;>
    unfold createQueries <;>
    dsimp only [] <;>
    split_ifs <;>
    simp_all [matchesAll_append, matchesAll, matchesQuery,
      List.length_pos]

/-! ## Lemmas about `splitOnDot` and `getFileType` -/

lemma splitOnDot_two_of_dot {cs : List Char} (h : '.' ∈ cs) :
    ∃ a t, splitOnDot cs = a :: t ∧ t ≠ [] := by
  induction cs with
  | nil => simp at h
  | cons c rest ih =>
    by_cases hc : c = '.'
    · subst hc
      obtain ⟨a, t, hat⟩ : ∃ a t, splitOnDot rest = a :: t := by
        cases hsp : splitOnDot rest with
        | nil => exact absurd hsp (splitOnDot_ne_nil rest)
        | cons a t => exact ⟨a, t, rfl⟩
      exact ⟨[], a :: t, by simp [splitOnDot, hat], by simp⟩
    · have hrest : '.' ∈ rest := by
        rcases List.mem_cons.mp h with h1 | h2
        · exact absurd h1.symm hc
        · exact h2
      obtain ⟨a, t, ht, hne⟩ := ih hrest
      exact ⟨c :: a, t, by simp [splitOnDot, ht, hc], hne⟩

lemma splitOnDot_last_cons (c : Char) (rest : List Char) :
    (splitOnDot (c :: rest)).getLast? =
      if '.' ∈ rest then (splitOnDot rest).getLast?
      else if c = '.' then some rest else some (c :: rest) := by
  by_cases hdot : '.' ∈ rest
  · obtain ⟨a, t, hat, hne⟩ := splitOnDot_two_of_dot hdot
    obtain ⟨t0, ts, rfl⟩ := List.exists_cons_of_ne_nil hne
    rw [if_pos hdot, hat]
    simp only [splitOnDot, hat]
    split <;> simp [List.getLast?_cons_cons]
  · rw [if_neg hdot]
    simp only [splitOnDot, splitOnDot_no_dot hdot]
    split <;> simp_all

lemma mem_of_getLast?_some {l : List α} {a : α} (h : l.getLast? = some a) :
    a ∈ l := by
  have hx : a ∈ l.getLast? := h
  obtain ⟨hne, ha⟩ := List.mem_getLast?_eq_getLast hx
  rw [ha]
  exact List.getLast_mem hne

lemma splitOnDot_last_empty (cs : List Char) :
    (splitOnDot cs).getLast? = some [] ↔
      cs = [] ∨ cs.getLast? = some '.' := by
  induction cs with
  | nil => simp [splitOnDot]
  | cons c rest ih =>
    rw [splitOnDot_last_cons]
    by_cases hdot : '.' ∈ rest
    · obtain ⟨r0, rs, rfl⟩ : ∃ r0 rs, rest = r0 :: rs := by
        cases rest with
        | nil => simp at hdot
        | cons r0 rs => exact ⟨r0, rs, rfl⟩
      simp [hdot, ih, List.getLast?_cons_cons]
    · by_cases hc : c = '.'
      · subst hc
        rw [if_neg hdot, if_pos rfl]
        cases rest with
        | nil => simp
        | cons r0 rs =>
          simp only [List.getLast?_cons_cons]
          constructor
          · rintro ⟨⟩
          · rintro (h | h)
            · exact absurd h (by simp)
            · exact absurd (mem_of_getLast?_some h) hdot
      · rw [if_neg hdot, if_neg hc]
        constructor
        · rintro ⟨⟩
        · rintro (h | h)
          · exact absurd h (by simp)
          · cases rest with
            | nil => simp_all
            | cons r0 rs =>
              rw [List.getLast?_cons_cons] at h
              exact absurd (mem_of_getLast?_some h) hdot

lemma splitOnDot_getLast_ex (cs : List Char) :
    ∃ l, (splitOnDot cs).getLast? = some l := by
  cases h : (splitOnDot cs).getLast? with
  | some l => exact ⟨l, rfl⟩
  | none => exact absurd (List.getLast?_eq_none_iff.mp h) (splitOnDot_ne_nil cs)

/-- `getFileType` is the fixed lookup table applied to the lowercased
final dot-separated component. -/
lemma getFileType_spec (fileName : String) :
    getFileType fileName =
      (lookupCategory (extensionOf fileName), extensionOf fileName) := by
  obtain ⟨l, hl⟩ := splitOnDot_getLast_ex fileName.toList
  simp only [getFileType, extensionOf, hl, lookupCategory]
  split_ifs <;> simp_all

lemma strMk_eq_empty_iff (l : List Char) : (String.mk l = "") ↔ l = [] := by
  rw [show ("" : String) = String.mk [] from rfl]
  exact ⟨fun h => by injection h, fun h => by rw [h]⟩

lemma str_eq_empty_iff (s : String) : (s = "") ↔ s.toList = [] := by
  cases s with
  | mk data =>
    rw [show ("" : String) = String.mk [] from rfl]
    exact ⟨fun h => by injection h, fun h => by simp_all [String.toList]⟩

lemma extensionOf_no_dot {name : String} (h : '.' ∉ name.toList) :
    extensionOf name = jsToLower name := by
  simp only [extensionOf, splitOnDot_no_dot h, List.getLast?_singleton]
  rfl

lemma extensionOf_eq_empty_iff (name : String) :
    extensionOf name = "" ↔ name = "" ∨ name.toList.getLast? = some '.' := by
  obtain ⟨l, hl⟩ := splitOnDot_getLast_ex name.toList
  simp only [extensionOf, hl]
  rw [strMk_eq_empty_iff, List.map_eq_nil_iff, str_eq_empty_iff]
  rw [← splitOnDot_last_empty, hl]
  simp

/-! ## Claim theorems: file-type derivation -/

/-- C7: the stored category is `getFileType` of the file name: the fixed
lookup table applied to the lowercased final dot-separated component,
always one of the five categories; pdf/docx/txt are documents, jpg/png/svg
images, mp4/mkv videos, mp3/wav audio. -/
theorem getFileType_fixed_table (fileName : String) :
    (getFileType fileName).1 = lookupCategory (extensionOf fileName) ∧
    (getFileType fileName).2 = extensionOf fileName ∧
    (getFileType fileName).1 ∈
      [FileType.document, FileType.image, FileType.video, FileType.audio,
       FileType.other] ∧
    lookupCategory "pdf" = FileType.document ∧
    lookupCategory "docx" = FileType.document ∧
    lookupCategory "txt" = FileType.document ∧
    lookupCategory "jpg" = FileType.image ∧
    lookupCategory "png" = FileType.image ∧
    lookupCategory "svg" = FileType.image ∧
    lookupCategory "mp4" = FileType.video ∧
    lookupCategory "mkv" = FileType.video ∧
    lookupCategory "mp3" = FileType.audio ∧
    lookupCategory "wav" = FileType.audio := by
  refine ⟨by rw [getFileType_spec], by rw [getFileType_spec], ?_,
    by decide, by decide, by decide, by decide, by decide, by decide,
    by decide, by decide, by decide, by decide⟩
  cases h : (getFileType fileName).1 <;> simp

/-- C10: `getFileType` is total; a name with no dot gets the whole
lowercased name as its extension (classified through the table, `other`
unless it is itself a known extension); the extension is empty exactly
for the empty name or a name ending in `'.'`, and an empty extension
forces category `other`; `"README"` maps to `(other, "readme")`. -/
theorem getFileType_no_dot (name : String) :
    ('.' ∉ name.toList → name ≠ "" →
      getFileType name = (lookupCategory (jsToLower name), jsToLower name)) ∧
    ((getFileType name).2 = "" ↔
      name = "" ∨ name.toList.getLast? = some '.') ∧
    ((getFileType name).2 = "" → (getFileType name).1 = FileType.other) ∧
    getFileType "README" = (FileType.other, "readme") := by
  refine ⟨fun h _ => ?_, ?_, fun h => ?_, by decide⟩
  · rw [getFileType_spec, extensionOf_no_dot h]
  · rw [getFileType_spec]
    exact extensionOf_eq_empty_iff name
  · rw [getFileType_spec] at h ⊢
    simp only at h
    rw [h]
    rfl

/-- Witness for C10 at the concrete name `"README"`. -/
theorem getFileType_no_dot_witness :
    ('.' ∉ String.toList "README") ∧ "README" ≠ "" ∧
    getFileType "README" =
      (lookupCategory (jsToLower "README"), jsToLower "README") :=
  ⟨by decide, by decide, (getFileType_no_dot "README").1 (by decide) (by decide)⟩

/-! ## Lemmas about `verifyFileOwnership` -/

lemma verifyFileOwnership_not_owner (db : DB) (u : UserRecord)
    (fileId actionType : String) (fdoc : FileRecord)
    (hdoc : getDocument db fileId = some fdoc) (hown : fdoc.owner ≠ u.id) :
    verifyFileOwnership db (some u) fileId actionType =
      (.ok ⟨false, some u, some fdoc,
        some ⟨"error",
          "Only the file owner can " ++ actionType ++ " this file"⟩⟩,
       [.getDoc fileId]) := by
  simp [verifyFileOwnership, hdoc, hown]

lemma verifyFileOwnership_owner (db : DB) (u : UserRecord)
    (fileId actionType : String) (fdoc : FileRecord)
    (hdoc : getDocument db fileId = some fdoc) (hown : fdoc.owner = u.id) :
    verifyFileOwnership db (some u) fileId actionType =
      (.ok ⟨true, some u, some fdoc, none⟩, [.getDoc fileId]) := by
  simp [verifyFileOwnership, hdoc, hown]

/-- The full behaviour of `renameFile` on the owner path. -/
lemma renameFile_owner_eq (db : DB) (u : UserRecord)
    (fileId name extension : String) (fdoc : FileRecord)
    (hdoc : getDocument db fileId = some fdoc) (hown : fdoc.owner = u.id) :
    renameFile db (some u) fileId name extension =
      (.ok (.doc { fdoc with name := renameNewName name extension }),
       { db with files := db.files.map (fun g =>
           if g.id == fileId then
             { fdoc with name := renameNewName name extension }
           else g) },
       [.getDoc fileId, .dbUpdate fileId]) := by
  rw [renameFile, verifyFileOwnership_owner db u fileId "rename" fdoc hdoc hown]
  simp [updateDocument, hdoc, applyPatch]

/-- The full behaviour of `updateFileUsers` on the owner path. -/
lemma updateFileUsers_owner_eq (db : DB) (u : UserRecord)
    (fileId : String) (emails : List String) (fdoc : FileRecord)
    (hdoc : getDocument db fileId = some fdoc) (hown : fdoc.owner = u.id) :
    updateFileUsers db (some u) fileId emails =
      (.ok (.doc { fdoc with users := emails }),
       { db with files := db.files.map (fun g =>
           if g.id == fileId then { fdoc with users := emails } else g) },
       [.getDoc fileId, .dbUpdate fileId]) := by
  rw [updateFileUsers, verifyFileOwnership_owner db u fileId
    "update sharing permissions for" fdoc hdoc hown]
  simp [updateDocument, hdoc, applyPatch]

/-! ## Fixtures for the concrete witnesses -/

/-- The file owner in the witness scenarios. -/
def sampleOwner : UserRecord := ⟨"u1", "owner@example.com"⟩

/-- An authenticated user who does not own `sampleFile`. -/
def sampleIntruder : UserRecord := ⟨"u2", "intruder@example.com"⟩

/-- A stored document record owned by `sampleOwner`. -/
def sampleFile : FileRecord :=
  ⟨"f1", "report.pdf", .document, "u", "pdf", 1000, "u1", "a1", [], "b1", 5⟩

/-- A one-file backend state. -/
def sampleDB : DB := ⟨[sampleFile], ["b1"]⟩

/-! ## Claim theorems: authorization and mutation -/

/-- C1: when the authenticated caller is not the file's owner, each of
`renameFile`, `updateFileUsers` and `deleteFile` returns the structured
`{status:'error', message}` object (it does not throw), issues no update
or delete call, and leaves the backend state unchanged. -/
theorem nonOwner_mutations_rejected (db : DB) (u : UserRecord)
    (fileId name extension bucketFileId : String) (emails : List String)
    (dbDeleteOk : Bool) (fdoc : FileRecord)
    (hdoc : getDocument db fileId = some fdoc) (hown : fdoc.owner ≠ u.id) :
    renameFile db (some u) fileId name extension =
      (.ok (.err ⟨"error", "Only the file owner can rename this file"⟩),
       db, [.getDoc fileId]) ∧
    updateFileUsers db (some u) fileId emails =
      (.ok (.err ⟨"error",
        "Only the file owner can update sharing permissions for this file"⟩),
       db, [.getDoc fileId]) ∧
    deleteFile db (some u) fileId bucketFileId dbDeleteOk =
      (.ok (.err ⟨"error", "Only the file owner can delete this file"⟩),
       db, [.getDoc fileId]) := by
  refine ⟨?_, ?_, ?_⟩
  · rw [renameFile,
      verifyFileOwnership_not_owner db u fileId "rename" fdoc hdoc hown]
    rfl
  · rw [updateFileUsers, verifyFileOwnership_not_owner db u fileId
      "update sharing permissions for" fdoc hdoc hown]
    rfl
  · rw [deleteFile,
      verifyFileOwnership_not_owner db u fileId "delete" fdoc hdoc hown]
    rfl

/-- Witness for C1: `sampleIntruder` cannot rename, re-share or delete
`sampleOwner`'s file. -/
theorem nonOwner_mutations_rejected_witness :
    getDocument sampleDB "f1" = some sampleFile ∧
    sampleFile.owner ≠ sampleIntruder.id ∧
    renameFile sampleDB (some sampleIntruder) "f1" "notes" "pdf" =
      (.ok (.err ⟨"error", "Only the file owner can rename this file"⟩),
       sampleDB, [.getDoc "f1"]) :=
  ⟨by decide, by decide,
   (nonOwner_mutations_rejected sampleDB sampleIntruder "f1" "notes" "pdf"
     "b1" [] true sampleFile (by decide) (by decide)).1⟩

/-- C9: with no authenticated user, each of `renameFile`,
`updateFileUsers` and `deleteFile` returns the structured
`{status:'error', message:'User not authenticated'}` object without
throwing, issues no backend call at all, and leaves the state unchanged. -/
theorem unauthenticated_rejected (db : DB)
    (fileId name extension bucketFileId : String) (emails : List String)
    (dbDeleteOk : Bool) :
    renameFile db none fileId name extension =
      (.ok (.err ⟨"error", "User not authenticated"⟩), db, []) ∧
    updateFileUsers db none fileId emails =
      (.ok (.err ⟨"error", "User not authenticated"⟩), db, []) ∧
    deleteFile db none fileId bucketFileId dbDeleteOk =
      (.ok (.err ⟨"error", "User not authenticated"⟩), db, []) :=
  ⟨rfl, rfl, rfl⟩

/-- C4: an owner-initiated rename stores exactly `name` when the
lowercased name already ends with `"." ++` the lowercased extension, and
`name ++ "." ++ extension` otherwise. -/
theorem renameFile_appends_extension (db : DB) (u : UserRecord)
    (fileId name extension : String) (fdoc : FileRecord)
    (hdoc : getDocument db fileId = some fdoc) (hown : fdoc.owner = u.id) :
    (jsEndsWith (jsToLower name) ("." ++ jsToLower extension) = true →
      ∃ db' tr, renameFile db (some u) fileId name extension =
        (.ok (.doc { fdoc with name := name }), db', tr)) ∧
    (jsEndsWith (jsToLower name) ("." ++ jsToLower extension) = false →
      ∃ db' tr, renameFile db (some u) fileId name extension =
        (.ok (.doc { fdoc with name := name ++ "." ++ extension }),
         db', tr)) := by
  rw [renameFile_owner_eq db u fileId name extension fdoc hdoc hown]
  constructor
  · intro h
    have hn : renameNewName name extension = name := by
      simp [renameNewName, h]
    rw [hn]
    exact ⟨_, _, rfl⟩
  · intro h
    have hn : renameNewName name extension = name ++ "." ++ extension := by
      simp [renameNewName, h]
    rw [hn]
    exact ⟨_, _, rfl⟩

/-- Witness for C4: renaming to `"report"` with extension `"pdf"` stores
`"report.pdf"`, and renaming to `"report.pdf"` stores it unchanged. -/
theorem renameFile_appends_extension_witness :
    getDocument sampleDB "f1" = some sampleFile ∧
    sampleFile.owner = sampleOwner.id ∧
    jsEndsWith (jsToLower "report") ("." ++ jsToLower "pdf") = false ∧
    jsEndsWith (jsToLower "report.pdf") ("." ++ jsToLower "pdf") = true ∧
    (∃ db' tr, renameFile sampleDB (some sampleOwner) "f1" "report" "pdf" =
      (.ok (.doc { sampleFile with name := "report" ++ "." ++ "pdf" }),
       db', tr)) ∧
    (∃ db' tr, renameFile sampleDB (some sampleOwner) "f1" "report.pdf" "pdf" =
      (.ok (.doc { sampleFile with name := "report.pdf" }), db', tr)) :=
  ⟨by decide, by decide, by decide, by decide,
   (renameFile_appends_extension sampleDB sampleOwner "f1" "report" "pdf"
     sampleFile (by decide) (by decide)).2 (by decide),
   (renameFile_appends_extension sampleDB sampleOwner "f1" "report.pdf" "pdf"
     sampleFile (by decide) (by decide)).1 (by decide)⟩

/-- C8: on the owner path, `renameFile` writes a record differing from
the stored one in the `name` field alone, and `updateFileUsers` writes a
record differing in the `users` field alone (fully replaced by the given
emails); category, extension, size, owner, bucketFileId and every other
field are untouched, in the returned document and in the store. -/
theorem mutations_frame (db : DB) (u : UserRecord)
    (fileId name extension : String) (emails : List String)
    (fdoc : FileRecord)
    (hdoc : getDocument db fileId = some fdoc) (hown : fdoc.owner = u.id) :
    (∃ n, renameFile db (some u) fileId name extension =
      (.ok (.doc { fdoc with name := n }),
       { db with files := db.files.map (fun g =>
           if g.id == fileId then { fdoc with name := n } else g) },
       [.getDoc fileId, .dbUpdate fileId])) ∧
    updateFileUsers db (some u) fileId emails =
      (.ok (.doc { fdoc with users := emails }),
       { db with files := db.files.map (fun g =>
           if g.id == fileId then { fdoc with users := emails } else g) },
       [.getDoc fileId, .dbUpdate fileId]) :=
  ⟨⟨renameNewName name extension,
    renameFile_owner_eq db u fileId name extension fdoc hdoc hown⟩,
   updateFileUsers_owner_eq db u fileId emails fdoc hdoc hown⟩

/-- Witness for C8 on the sample store: sharing with one email replaces
only the `users` field. -/
theorem mutations_frame_witness :
    getDocument sampleDB "f1" = some sampleFile ∧
    sampleFile.owner = sampleOwner.id ∧
    updateFileUsers sampleDB (some sampleOwner) "f1" ["friend@example.com"] =
      (.ok (.doc { sampleFile with users := ["friend@example.com"] }),
       { sampleDB with files := sampleDB.files.map (fun g =>
           if g.id == "f1" then
             { sampleFile with users := ["friend@example.com"] }
           else g) },
       [.getDoc "f1", .dbUpdate "f1"]) :=
  ⟨by decide, by decide,
   (mutations_frame sampleDB sampleOwner "f1" "n" "pdf"
     ["friend@example.com"] sampleFile (by decide) (by decide)).2⟩

/-- C2: on the owner path, `deleteFile` deletes the database record
first; the blob deletion is issued strictly after a successful record
deletion, and when the record deletion fails the action re-throws with
the state unchanged and no blob call ever issued. -/
theorem deleteFile_record_before_blob (db : DB) (u : UserRecord)
    (fileId bucketFileId : String) (dbDeleteOk : Bool) (fdoc : FileRecord)
    (hdoc : getDocument db fileId = some fdoc) (hown : fdoc.owner = u.id) :
    (dbDeleteOk = true →
      deleteFile db (some u) fileId bucketFileId dbDeleteOk =
        (.ok .success,
         { files := db.files.filter (fun g => !(g.id == fileId)),
           blobs := db.blobs.filter (fun b => !(b == bucketFileId)) },
         [.getDoc fileId, .dbDelete fileId true,
          .blobDelete bucketFileId])) ∧
    (dbDeleteOk = false →
      deleteFile db (some u) fileId bucketFileId dbDeleteOk =
        (.error (), db, [.getDoc fileId, .dbDelete fileId false]) ∧
      ∀ b, Event.blobDelete b ∉
        [Event.getDoc fileId, Event.dbDelete fileId false]) := by
  constructor
  · intro h
    subst h
    rw [deleteFile, verifyFileOwnership_owner db u fileId "delete" fdoc hdoc hown]
    simp [deleteDocument, hdoc]
  · intro h
    subst h
    refine ⟨?_, by simp⟩
    rw [deleteFile, verifyFileOwnership_owner db u fileId "delete" fdoc hdoc hown]
    rfl

/-- Witness for C2: a failed record deletion on the sample store leaves
everything intact and never touches the blob. -/
theorem deleteFile_record_before_blob_witness :
    getDocument sampleDB "f1" = some sampleFile ∧
    sampleFile.owner = sampleOwner.id ∧
    (deleteFile sampleDB (some sampleOwner) "f1" "b1" false =
      (.error (), sampleDB, [.getDoc "f1", .dbDelete "f1" false]) ∧
     ∀ b, Event.blobDelete b ∉
       [Event.getDoc "f1", Event.dbDelete "f1" false]) :=
  ⟨by decide, by decide,
   (deleteFile_record_before_blob sampleDB sampleOwner "f1" "b1" false
     sampleFile (by decide) (by decide)).2 rfl⟩

/-- C5: when the blob write succeeds but the record creation fails,
`uploadFile` deletes the just-created blob (the `blobDelete` call is
issued after the failed `docCreate` and before the error is re-thrown)
and, provided the fresh blob id was not already in the bucket, the
bucket is exactly as before — no orphaned blob remains. -/
theorem uploadFile_compensates_failed_record (db : DB)
    (file : UploadedFile) (ownerId accountId newBlobId newDocId : String)
    (hfresh : newBlobId ∉ db.blobs) :
    uploadFile db file ownerId accountId newBlobId newDocId true false =
      (.error (), db,
       [.blobCreate newBlobId true, .docCreate false,
        .blobDelete newBlobId]) := by
  have h1 : ∀ b ∈ db.blobs, (!(b == newBlobId)) = true := by
    intro b hbmem
    have hne : b ≠ newBlobId := fun hbe => hfresh (hbe ▸ hbmem)
    simp [hne]
  have hb : List.filter (fun b => !(b == newBlobId)) (db.blobs ++ [newBlobId])
      = db.blobs := by
    rw [List.filter_append, List.filter_eq_self.mpr h1]
    simp
  have hstep : uploadFile db file ownerId accountId newBlobId newDocId true false =
      (.error (),
       { db with blobs :=
           List.filter (fun b => !(b == newBlobId)) (db.blobs ++ [newBlobId]) },
       [.blobCreate newBlobId true, .docCreate false,
        .blobDelete newBlobId]) := rfl
  rw [hstep, hb]

/-- Witness for C5 on the sample store with a fresh blob id. -/
theorem uploadFile_compensates_failed_record_witness :
    ("b2" ∉ sampleDB.blobs) ∧
    uploadFile sampleDB ⟨"notes.txt", 42⟩ "u1" "a1" "b2" "f2" true false =
      (.error (), sampleDB,
       [.blobCreate "b2" true, .docCreate false, .blobDelete "b2"]) :=
  ⟨by decide,
   uploadFile_compensates_failed_record sampleDB ⟨"notes.txt", 42⟩
     "u1" "a1" "b2" "f2" (by decide)⟩

/-! ## Quota accounting: specification-side definitions and fold lemmas -/

/-- Spec-side reading of the claim: total byte size of the records in one
category. -/
def specCategorySize (files : List FileRecord) (t : FileType) : Nat :=
  ((files.filter (fun f => f.type == t)).map FileRecord.size).sum

/-- One step of the latest-date accumulation (the `if (!latestDate ||
new Date(...) > new Date(...))` update, on the `Option Nat` embedding). -/
def optMaxNat (acc : Option Nat) (d : Nat) : Option Nat :=
  match acc with
  | none => some d
  | some m => if m < d then some d else some m

/-- Spec-side reading of the claim: the latest update date among one
category's records (`none` when the category is empty). -/
def specCategoryLatest (files : List FileRecord) (t : FileType) : Option Nat :=
  ((files.filter (fun f => f.type == t)).map FileRecord.updatedAt).foldl
    optMaxNat none

lemma optMaxNat_some (a d : Nat) :
    optMaxNat (some a) d = some (max a d) := by
  simp only [optMaxNat, Nat.max_def]
  split_ifs <;> simp <;> omega

lemma foldl_optMaxNat_eq_max (l : List Nat) :
    ∀ a, l.foldl optMaxNat (some a) = some (l.foldl max a) := by
  induction l with
  | nil => intro a; rfl
  | cons d ds ih =>
    intro a
    rw [List.foldl_cons, optMaxNat_some, ih, List.foldl_cons]

lemma foldl_max_spec (l : List Nat) :
    ∀ a, (l.foldl max a = a ∨ l.foldl max a ∈ l) ∧
      a ≤ l.foldl max a ∧ ∀ d ∈ l, d ≤ l.foldl max a := by
  induction l with
  | nil => intro a; exact ⟨Or.inl rfl, Nat.le_refl a, by simp⟩
  | cons d ds ih =>
    intro a
    obtain ⟨hmem, hle, hbound⟩ := ih (max a d)
    rw [List.foldl_cons]
    refine ⟨?_, ?_, ?_⟩
    · rcases hmem with h | h
      · rcases max_choice a d with hc | hc
        · exact Or.inl (h.trans hc)
        · right
          rw [h, hc]
          exact List.mem_cons_self d ds
      · exact Or.inr (List.mem_cons_of_mem d h)
    · exact Nat.le_trans (Nat.le_max_left a d) hle
    · intro x hx
      rcases List.mem_cons.mp hx with rfl | hx'
      · exact Nat.le_trans (Nat.le_max_right a x) hle
      · exact hbound x hx'

/-- The `forEach` fold, started at an arbitrary accumulator, computes
per-category sums and latest-date folds plus the grand total. -/
lemma foldl_addFile_eq (files : List FileRecord) (ts : TotalSpace) :
    files.foldl addFile ts =
      { image :=
          { size := ts.image.size + specCategorySize files FileType.image
            latestDate :=
              ((files.filter (fun f => f.type == FileType.image)).map
                FileRecord.updatedAt).foldl optMaxNat ts.image.latestDate }
        document :=
          { size := ts.document.size + specCategorySize files FileType.document
            latestDate :=
              ((files.filter (fun f => f.type == FileType.document)).map
                FileRecord.updatedAt).foldl optMaxNat ts.document.latestDate }
        video :=
          { size := ts.video.size + specCategorySize files FileType.video
            latestDate :=
              ((files.filter (fun f => f.type == FileType.video)).map
                FileRecord.updatedAt).foldl optMaxNat ts.video.latestDate }
        audio :=
          { size := ts.audio.size + specCategorySize files FileType.audio
            latestDate :=
              ((files.filter (fun f => f.type == FileType.audio)).map
                FileRecord.updatedAt).foldl optMaxNat ts.audio.latestDate }
        other :=
          { size := ts.other.size + specCategorySize files FileType.other
            latestDate :=
              ((files.filter (fun f => f.type == FileType.other)).map
                FileRecord.updatedAt).foldl optMaxNat ts.other.latestDate }
        used := ts.used + (files.map FileRecord.size).sum
        all := ts.all } := by
  induction files generalizing ts with
  | nil => simp [specCategorySize]
  | cons f fs ih =>
    rw [List.foldl_cons, ih]
    cases hft : f.type <;>
      simp [addFile, hft, updateCategory, optMaxNat, specCategorySize,
        List.filter_cons] <;>
      omega

lemma specCategoryLatest_none_iff (files : List FileRecord) (t : FileType) :
    specCategoryLatest files t = none ↔
      files.filter (fun f => f.type == t) = [] := by
  unfold specCategoryLatest
  cases h : (files.filter (fun f => f.type == t)).map FileRecord.updatedAt with
  | nil =>
    simp only [h, List.foldl_nil]
    simp [List.map_eq_nil_iff.mp h]
  | cons d ds =>
    have hne : files.filter (fun f => f.type == t) ≠ [] := by
      intro hf
      rw [hf] at h
      simp at h
    rw [List.foldl_cons,
      show optMaxNat none d = some d from rfl, foldl_optMaxNat_eq_max]
    simp [hne]

lemma specCategoryLatest_is_max (files : List FileRecord) (t : FileType)
    (m : Nat) (h : specCategoryLatest files t = some m) :
    m ∈ (files.filter (fun f => f.type == t)).map FileRecord.updatedAt ∧
    ∀ d ∈ (files.filter (fun f => f.type == t)).map FileRecord.updatedAt,
      d ≤ m := by
  unfold specCategoryLatest at h
  cases hmap : (files.filter (fun f => f.type == t)).map
      FileRecord.updatedAt with
  | nil =>
    rw [hmap] at h
    simp at h
  | cons d ds =>
    rw [hmap, List.foldl_cons,
      show optMaxNat none d = some d from rfl, foldl_optMaxNat_eq_max] at h
    obtain ⟨hmem, hle, hbound⟩ := foldl_max_spec ds d
    injection h with h'
    subst h'
    constructor
    · rcases hmem with h1 | h1
      · rw [h1]
        exact List.mem_cons_self _ _
      · exact List.mem_cons_of_mem _ h1
    · intro x hx
      rcases List.mem_cons.mp hx with rfl | hx'
      · exact hle
      · exact hbound x hx'

/-! ## Claim theorem: quota summary -/

/-- C3: for the authenticated owner's records, `getTotalSpaceUsed`
returns, per category, the sum of that category's byte sizes and the
maximum `$updatedAt` (`none`, the empty string, exactly when the category
has no records), plus `used` equal to the total size and `all` fixed at
`2 * 1024 * 1024 * 1024`. -/
theorem getTotalSpaceUsed_quota (db : DB) (u : UserRecord)
    (ts : TotalSpace) (files : List FileRecord)
    (hfiles : files = db.files.filter (fun f => f.owner == u.id))
    (hts : getTotalSpaceUsed db (some u) = .ok ts) :
    (∀ t : FileType, (categoryOf ts t).size = specCategorySize files t) ∧
    (∀ t : FileType,
      (categoryOf ts t).latestDate = specCategoryLatest files t) ∧
    (∀ t : FileType, specCategoryLatest files t = none ↔
      files.filter (fun f => f.type == t) = []) ∧
    (∀ t : FileType, ∀ m, specCategoryLatest files t = some m →
      m ∈ (files.filter (fun f => f.type == t)).map FileRecord.updatedAt ∧
      ∀ d ∈ (files.filter (fun f => f.type == t)).map FileRecord.updatedAt,
        d ≤ m) ∧
    ts.used = (files.map FileRecord.size).sum ∧
    ts.all = 2 * 1024 * 1024 * 1024 := by
  subst hfiles
  have hts' : (db.files.filter (fun f => f.owner == u.id)).foldl addFile
      initialTotalSpace = ts := by
    simpa [getTotalSpaceUsed] using hts
  rw [foldl_addFile_eq] at hts'
  subst hts'
  refine ⟨fun t => ?_, fun t => ?_,
    fun t => specCategoryLatest_none_iff _ t,
    fun t m hm => specCategoryLatest_is_max _ t m hm, ?_, ?_⟩
  · cases t <;> simp [categoryOf, initialTotalSpace]
  · cases t <;> simp [categoryOf, initialTotalSpace, specCategoryLatest]
  · simp [initialTotalSpace]
  · rfl

/-- The owner in the quota witness scenario. -/
def quotaOwner : UserRecord := ⟨"q1", "q@example.com"⟩

/-- Two documents of 1000 and 2000 bytes and one image of 500 bytes, all
owned by `quotaOwner`. -/
def quotaDB : DB :=
  ⟨[⟨"d1", "a.pdf", .document, "u", "pdf", 1000, "q1", "a1", [], "bd1", 10⟩,
    ⟨"d2", "b.pdf", .document, "u", "pdf", 2000, "q1", "a1", [], "bd2", 20⟩,
    ⟨"i1", "c.png", .image, "u", "png", 500, "q1", "a1", [], "bi1", 30⟩],
   []⟩

/-- The quota summary computed on `quotaDB`. -/
def quotaTS : TotalSpace :=
  (quotaDB.files.filter (fun f => f.owner == quotaOwner.id)).foldl addFile
    initialTotalSpace

/-- C6: `getFiles` returns exactly the stored records where the caller is
owner or listed collaborator, conjoined with the category filter when the
types list is non-empty and the name-contains filter when the search text
is non-empty; with category filter `["image"]` no `document` record is
ever returned, even one owned by the caller. -/
theorem getFiles_query_spec :
    (∀ (db : DB) (u : UserRecord) (types : List String)
        (s sort : String) (lim : Option Nat) (files : List FileRecord),
      getFiles db (some u) types s sort lim = .ok files →
      ∀ f, f ∈ files ↔
        (f ∈ db.files ∧ (f.owner = u.id ∨ u.email ∈ f.users) ∧
         (types ≠ [] → FileType.toStr f.type ∈ types) ∧
         (s ≠ "" → strContains f.name s = true))) ∧
    (∀ (db : DB) (u : UserRecord) (s sort : String) (lim : Option Nat)
        (files : List FileRecord) (f : FileRecord),
      getFiles db (some u) ["image"] s sort lim = .ok files →
      f.type = FileType.document → f ∉ files) := by
  have hmain : ∀ (db : DB) (u : UserRecord) (types : List String)
      (s sort : String) (lim : Option Nat) (files : List FileRecord),
      getFiles db (some u) types s sort lim = .ok files →
      ∀ f, f ∈ files ↔
        (f ∈ db.files ∧ (f.owner = u.id ∨ u.email ∈ f.users) ∧
         (types ≠ [] → FileType.toStr f.type ∈ types) ∧
         (s ≠ "" → strContains f.name s = true)) := by
    intro db u types s sort lim files h f
    have hfiles : files = listDocuments db
        (createQueries u types s
          (if sort = "" then "$createdAt-desc" else sort) lim) := by
      simpa [getFiles] using h.symm
    subst hfiles
    simp only [listDocuments, List.mem_filter, matchesAll_createQueries]
  refine ⟨hmain, ?_⟩
  intro db u s sort lim files f h hdoc hmem
  have hprop := (hmain db u ["image"] s sort lim files h f).mp hmem
  have h2 := hprop.2.2.1 (by simp)
  rw [hdoc] at h2
  simp [FileType.toStr] at h2

/-- Witness for C6: listing `sampleDB` with category filter `["image"]`
returns no record, in particular not the owned `document` record. -/
theorem getFiles_query_spec_witness :
    getFiles sampleDB (some sampleOwner) ["image"] "" "" none = .ok [] ∧
    sampleFile.type = FileType.document ∧
    sampleFile ∉ ([] : List FileRecord) :=
  ⟨by rfl, rfl,
   getFiles_query_spec.2 sampleDB sampleOwner "" "" none [] sampleFile
     (by rfl) rfl⟩

/-- Witness for C3: sizes {1000, 2000} in `document` and {500} in `image`
give document.size = 3000, image.size = 500, used = 3500. -/
theorem getTotalSpaceUsed_quota_witness :
    getTotalSpaceUsed quotaDB (some quotaOwner) = .ok quotaTS ∧
    quotaTS.document.size = 3000 ∧
    quotaTS.image.size = 500 ∧
    quotaTS.used = 3500 ∧
    (categoryOf quotaTS FileType.document).size =
      specCategorySize
        (quotaDB.files.filter (fun f => f.owner == quotaOwner.id))
        FileType.document :=
  ⟨rfl, by decide, by decide, by decide,
   (getTotalSpaceUsed_quota quotaDB quotaOwner quotaTS
     (quotaDB.files.filter (fun f => f.owner == quotaOwner.id))
     rfl rfl).1 FileType.document⟩
